import Mathlib

/-
Verification development for the family expense report pipeline
(app/rules_engine.py and app/processor.py).

Datasets are modelled as lists of rows (a pandas DataFrame with the
standard RangeIndex, which is what every pipeline stage receives and
returns).  Amounts are exact rationals.  The pandas string test
`Series.str.contains(pat, case=False, na=False)` interprets `pat` as a
regular expression compiled with re.IGNORECASE; it is modelled by a
derivative-based matcher over a faithful subset of Python's regex
syntax (literals, '.', '*', '+', '?', lazy markers, '|', groups,
'(?:...)', character classes with ranges/negation, and the escapes
\d \w \s \D \W \S plus escaped punctuation).  Constructs outside the
subset (anchors, counted repeats, backreferences, lookaround) make the
pattern unparseable here, in which case the model returns false; no
claim depends on such patterns.
-/

namespace FamilyExpense

/-- Calendar date of a transaction as produced by the external loaders
(pandas `to_datetime`); only year/month/day are relevant to the engine. -/
structure SDate where
  year : Int
  month : Nat
  day : Nat
deriving DecidableEq, Repr

/-- One transaction row.  The first eight fields are the normalized schema
produced by `data_loaders.py`; the remaining fields are columns added by the
pipeline stages and start out absent (`none` = column not present / NA). -/
structure Row where
  date : SDate
  merchant : Option String
  type : String
  category : Option String
  amount : Rat
  source : String
  account_owner : String
  source_file : String
  master_category : Option String := none
  merchant_group : Option String := none
  year : Option Int := none
  month : Option Nat := none
  year_month : Option (Int × Nat) := none
  abs_amount : Option Rat := none
  transaction_type : Option String := none
  account_group : Option String := none
deriving DecidableEq, Repr

/-- One exclusion predicate from exclusions.yaml: a loose map with optional
keys; `none` models a key that is absent from the mapping. -/
structure Exclusion where
  source : Option String := none
  type : Option String := none
  category : Option String := none
  description_contains : Option String := none
  reason : Option String := none
deriving DecidableEq, Repr

/-- The optional condition keys of one custom rule (rules.yaml). -/
structure RuleConds where
  source : Option String := none
  type : Option String := none
  category : Option String := none
  description_contains : Option String := none
  amount_min : Option Rat := none
  amount_max : Option Rat := none
deriving DecidableEq, Repr

/-- The action mapping of one custom rule.  `flag` appears in configured
rule files but is read by no code path of `apply_custom_rules`. -/
structure RuleAction where
  category : Option String := none
  flag : Option String := none
deriving DecidableEq, Repr

/-- One custom rule from rules.yaml. -/
structure Rule where
  name : Option String := none
  conditions : RuleConds := {}
  action : RuleAction := {}
deriving DecidableEq, Repr

/-- category_mapping.yaml: the `(original, master)` pairs of
`master_categories` in declared (insertion) order, plus the optional
`default_category`. -/
structure CategoryMappingCfg where
  master_categories : List (String × String) := []
  default_category : Option String := none
deriving DecidableEq, Repr

/-- One merchant group from the `merchant_groups` section of rules.yaml. -/
structure MGroup where
  name : String
  patterns : List String := []
  master_name : Option String := none
deriving DecidableEq, Repr

/-- One audit message printed by a stage: the human-readable label
(exclusion reason or rule name) and the row count it reports. -/
structure Report where
  label : String
  count : Nat
deriving DecidableEq, Repr

/-- Case swap used for IGNORECASE character-class membership. -/
def swapCase (c : Char) : Char :=
  if c.isLower then c.toUpper else if c.isUpper then c.toLower else c

/-- Perl-style character classes of Python re (ASCII reading). -/
inductive PCls where
  | digit | word | space | notDigit | notWord | notSpace
deriving DecidableEq, Repr

/-- Membership test of a Perl-style class. -/
def pclsTest : PCls → Char → Bool
  | .digit, c => c.isDigit
  | .word, c => c.isAlphanum || c == '_'
  | .space, c => c == ' ' || c == '\t' || c == '\n' || c == '\r' || c == '\x0b' || c == '\x0c'
  | .notDigit, c => !c.isDigit
  | .notWord, c => !(c.isAlphanum || c == '_')
  | .notSpace, c => !(c == ' ' || c == '\t' || c == '\n' || c == '\r' || c == '\x0b' || c == '\x0c')

/-- One item of a bracketed character class. -/
inductive CItem where
  | single (c : Char)
  | range (lo hi : Char)
  | perl (p : PCls)
deriving DecidableEq, Repr

/-- Raw (case-sensitive) membership test of one class item. -/
def citemTest : CItem → Char → Bool
  | .single d, c => c == d
  | .range lo hi, c => decide (lo ≤ c) && decide (c ≤ hi)
  | .perl p, c => pclsTest p c

/-- IGNORECASE membership in a character class: the character or its
case-swapped form belongs to some item. -/
def classTest (items : List CItem) (c : Char) : Bool :=
  items.any (fun it => citemTest it c) || items.any (fun it => citemTest it (swapCase c))

/-- A single-character matcher of the regex AST. -/
inductive CM where
  | lit (c : Char)
  | dot
  | cls (neg : Bool) (items : List CItem)
deriving DecidableEq, Repr

/-- Character matching under re.IGNORECASE; '.' excludes newline
(no DOTALL, as in the pandas call). -/
def cmTest : CM → Char → Bool
  | .lit d, c => c.toLower == d.toLower
  | .dot, c => c != '\n'
  | .cls neg items, c => if neg then !(classTest items c) else classTest items c

/-- Regular expressions (Kleene core; `+` and `?` are desugared). -/
inductive Regex where
  | emp
  | eps
  | ch (m : CM)
  | alt (r1 r2 : Regex)
  | cat (r1 r2 : Regex)
  | star (r : Regex)
deriving DecidableEq, Repr

/-- Does the regex accept the empty string. -/
def nullable : Regex → Bool
  | .emp => false
  | .eps => true
  | .ch _ => false
  | .alt a b => nullable a || nullable b
  | .cat a b => nullable a && nullable b
  | .star _ => true

/-- Brzozowski derivative with respect to one character. -/
def deriv : Regex → Char → Regex
  | .emp, _ => .emp
  | .eps, _ => .emp
  | .ch m, c => if cmTest m c then .eps else .emp
  | .alt a b, c => .alt (deriv a c) (deriv b c)
  | .cat a b, c =>
      if nullable a then .alt (.cat (deriv a c) b) (deriv b c)
      else .cat (deriv a c) b
  | .star r, c => .cat (deriv r c) (.star r)

/-- Does some prefix of the character list match the regex. -/
def hasMatchFrom : Regex → List Char → Bool
  | r, [] => nullable r
  | r, c :: cs => nullable r || hasMatchFrom (deriv r c) cs

/-- re.search semantics: some prefix of some suffix matches. -/
def reSearch : Regex → List Char → Bool
  | r, [] => nullable r
  | r, c :: cs => hasMatchFrom r (c :: cs) || reSearch r cs

/-- Quantifier characters of the pattern syntax. -/
def isQuantChar (c : Char) : Bool := c == '*' || c == '+' || c == '?'

/-- Opening curly brace character (counted repeats are outside the
modelled subset). -/
def lbrace : Char := Char.ofNat 123

/-- Closing curly brace character. -/
def rbrace : Char := Char.ofNat 125

/-- Pattern characters with no special regex meaning in the modelled
subset: anything but the Python re metacharacters. -/
def isPlainChar (c : Char) : Bool :=
  !(c == '(' || c == ')' || c == '[' || c == ']' || c == '\\' || c == '.' ||
    c == '*' || c == '+' || c == '?' || c == '|' || c == '^' || c == '$' ||
    c == lbrace || c == rbrace)

/-- Escaped character inside a class: Perl classes, whitespace escapes,
escaped punctuation; other alphanumeric escapes are outside the subset. -/
def escClassItem (e : Char) : Option CItem :=
  if e == 'd' then some (.perl .digit)
  else if e == 'D' then some (.perl .notDigit)
  else if e == 'w' then some (.perl .word)
  else if e == 'W' then some (.perl .notWord)
  else if e == 's' then some (.perl .space)
  else if e == 'S' then some (.perl .notSpace)
  else if e == 'n' then some (.single '\n')
  else if e == 't' then some (.single '\t')
  else if e == 'r' then some (.single '\r')
  else if e.isAlpha || e.isDigit then none
  else some (.single e)

/-- Escaped character used as a standalone atom. -/
def escAtom (e : Char) : Option CM :=
  (escClassItem e).map (fun it =>
    match it with
    | .single c => .lit c
    | it => .cls false [it])

/-- Reads the items of a bracketed class up to the closing bracket. -/
def parseClassItems (fuel : Nat) (s : List Char) : Option (List CItem × List Char) :=
  match fuel, s with
  | 0, _ => none
  | _, [] => none
  | fuel + 1, c :: rest =>
    if c == ']' then some ([], rest)
    else if c == '\\' then
      match rest with
      | [] => none
      | e :: rest2 =>
        match escClassItem e with
        | none => none
        | some it =>
          match parseClassItems fuel rest2 with
          | none => none
          | some (its, r) => some (it :: its, r)
    else
      match rest with
      | '-' :: d :: rest2 =>
        if d == ']' then
          match parseClassItems fuel ('-' :: d :: rest2) with
          | none => none
          | some (its, r) => some (.single c :: its, r)
        else if d == '\\' then none
        else if decide (c ≤ d) then
          match parseClassItems fuel rest2 with
          | none => none
          | some (its, r) => some (.range c d :: its, r)
        else none
      | _ =>
        match parseClassItems fuel rest with
        | none => none
        | some (its, r) => some (.single c :: its, r)

/-- After a quantifier: an optional lazy marker may follow, a further
quantifier or counted repeat is a syntax error. -/
def afterQuant (r : Regex) (rest : List Char) : Option (Regex × List Char) :=
  match rest with
  | [] => some (r, [])
  | d :: rest2 =>
    if d == '?' then
      match rest2 with
      | [] => some (r, [])
      | e :: _ => if isQuantChar e || e == lbrace then none else some (r, rest2)
    else if isQuantChar d || d == lbrace then none
    else some (r, d :: rest2)

mutual

/-- Alternation level of the pattern grammar. -/
def parseAlt (fuel : Nat) (s : List Char) : Option (Regex × List Char) :=
  match fuel with
  | 0 => none
  | fuel + 1 =>
    match parseCat fuel s with
    | none => none
    | some (r, s1) =>
      match s1 with
      | [] => some (r, [])
      | d :: rest =>
        if d == '|' then
          match parseAlt fuel rest with
          | none => none
          | some (r2, s2) => some (.alt r r2, s2)
        else some (r, d :: rest)

/-- Concatenation level of the pattern grammar. -/
def parseCat (fuel : Nat) (s : List Char) : Option (Regex × List Char) :=
  match fuel with
  | 0 => none
  | fuel + 1 =>
    match s with
    | [] => some (.eps, [])
    | c :: _ =>
      if c == ')' || c == '|' then some (.eps, s)
      else
        match parseRep fuel s with
        | none => none
        | some (r, s1) =>
          match parseCat fuel s1 with
          | none => none
          | some (r2, s2) => some (.cat r r2, s2)

/-- One atom with its optional quantifier. -/
def parseRep (fuel : Nat) (s : List Char) : Option (Regex × List Char) :=
  match fuel with
  | 0 => none
  | fuel + 1 =>
    match parseAtom fuel s with
    | none => none
    | some (r, s1) =>
      match s1 with
      | [] => some (r, [])
      | q :: rest =>
        if q == '*' then afterQuant (.star r) rest
        else if q == '+' then afterQuant (.cat r (.star r)) rest
        else if q == '?' then afterQuant (.alt .eps r) rest
        else if q == lbrace then none
        else some (r, q :: rest)

/-- One atom: group, class, escape, dot, or plain literal character. -/
def parseAtom (fuel : Nat) (s : List Char) : Option (Regex × List Char) :=
  match fuel with
  | 0 => none
  | fuel + 1 =>
    match s with
    | [] => none
    | c :: rest =>
      if c == '(' then
        match (match rest with
               | '?' :: ':' :: r2 => some r2
               | '?' :: _ => none
               | _ => some rest) with
        | none => none
        | some r2 =>
          match parseAlt fuel r2 with
          | none => none
          | some (r, s1) =>
            match s1 with
            | ')' :: s2 => some (r, s2)
            | _ => none
      else if c == '[' then
        match (match rest with
               | '^' :: ']' :: r3 =>
                 (parseClassItems fuel r3).map (fun p => ((true, CItem.single ']' :: p.1), p.2))
               | '^' :: r2 =>
                 (parseClassItems fuel r2).map (fun p => ((true, p.1), p.2))
               | ']' :: r3 =>
                 (parseClassItems fuel r3).map (fun p => ((false, CItem.single ']' :: p.1), p.2))
               | _ =>
                 (parseClassItems fuel rest).map (fun p => ((false, p.1), p.2))) with
        | none => none
        | some ((neg, its), s1) => some (.ch (.cls neg its), s1)
      else if c == '\\' then
        match rest with
        | [] => none
        | e :: r2 =>
          match escAtom e with
          | none => none
          | some m => some (.ch m, r2)
      else if c == '.' then some (.ch .dot, rest)
      else if isPlainChar c then some (.ch (.lit c), rest)
      else none

end

/-- Compiles a pattern string; `none` for syntax outside the subset
(Python would raise re.error or use an unsupported construct). -/
def parsePat (pat : String) : Option Regex :=
  match parseAlt (4 * pat.length + 8) pat.toList with
  | some (r, []) => some r
  | _ => none

/-- Model of re.search with re.IGNORECASE on one present string cell. -/
def strContainsCI (pat : String) (s : String) : Bool :=
  match parsePat pat with
  | some r => reSearch r s.toList
  | none => false

/-- Model of `Series.str.contains(pat, case=False, na=False)` applied to
one cell: a missing cell (NaN merchant) yields false, never an error. -/
def optContainsCI (pat : String) (m : Option String) : Bool :=
  match m with
  | none => false
  | some s => strContainsCI pat s

/-- Lower-cases every character of a list. -/
def lowerL (l : List Char) : List Char := l.map Char.toLower

/-- Scans for the first list occurring contiguously inside the second. -/
def isSubstrL (pat : List Char) : List Char → Bool
  | [] => pat.isEmpty
  | c :: cs => List.isPrefixOf pat (c :: cs) || isSubstrL pat cs

/-- The claim's reading of description_contains: the configured text
occurs literally, ignoring case, within the string. -/
def literalContainsCI (pat s : String) : Bool :=
  isSubstrL (lowerL pat.toList) (lowerL s.toList)

/-- Mask of one exclusion predicate on one row: the AND of the specified
sub-conditions, mirroring the four `if key in exclusion` blocks of
`RulesEngine.apply_exclusions`; an omitted key contributes nothing
(the mask starts as all-True). -/
def matchesExclusion (e : Exclusion) (r : Row) : Bool :=
  (match e.source with | none => true | some v => r.source == v) &&
  (match e.type with | none => true | some v => r.type == v) &&
  (match e.category with | none => true | some v => r.category == some v) &&
  (match e.description_contains with | none => true | some p => optContainsCI p r.merchant)

/-- One iteration of the exclusion loop: compute the mask's row count,
and when positive drop the matching rows (`result_df[~mask]`) and print
the count with the configured reason (default when absent). -/
def exclFoldStep (acc : List Row × List Report) (e : Exclusion) : List Row × List Report :=
  let cnt := acc.1.countP (fun r => matchesExclusion e r)
  if 0 < cnt then
    (acc.1.filter (fun r => !(matchesExclusion e r)),
     acc.2 ++ [⟨e.reason.getD "No reason provided", cnt⟩])
  else acc

/-- `RulesEngine.apply_exclusions`: folds the configured exclusion list,
in order, over a copy of the dataset; also returns the audit reports. -/
def applyExclusions (E : List Exclusion) (df : List Row) : List Row × List Report :=
  E.foldl exclFoldStep (df, [])

/-- Mask of one custom rule's conditions on one row: the AND of the six
optional condition blocks of `RulesEngine.apply_custom_rules`. -/
def matchesRule (c : RuleConds) (r : Row) : Bool :=
  (match c.source with | none => true | some v => r.source == v) &&
  (match c.type with | none => true | some v => r.type == v) &&
  (match c.category with | none => true | some v => r.category == some v) &&
  (match c.description_contains with | none => true | some p => optContainsCI p r.merchant) &&
  (match c.amount_min with | none => true | some v => decide (v ≤ r.amount)) &&
  (match c.amount_max with | none => true | some v => decide (r.amount ≤ v))

/-- One iteration of the custom-rule loop: when the mask matches some row,
write the action's category (if the action has one) to the matched rows
and print the rule name (default when absent) with the matched count;
a rule with an all-False mask does nothing and prints nothing. -/
def ruleFoldStep (acc : List Row × List Report) (rule : Rule) : List Row × List Report :=
  if acc.1.any (fun r => matchesRule rule.conditions r) then
    ((match rule.action.category with
      | some c => acc.1.map (fun r =>
          if matchesRule rule.conditions r then {r with category := some c} else r)
      | none => acc.1),
     acc.2 ++ [⟨rule.name.getD "Unknown",
               acc.1.countP (fun r => matchesRule rule.conditions r)⟩])
  else acc

/-- `RulesEngine.apply_custom_rules`: folds the configured rule list, in
order, over a copy of the dataset; also returns the audit reports. -/
def applyCustomRules (R : List Rule) (df : List Row) : List Row × List Report :=
  R.foldl ruleFoldStep (df, [])

/-- Column initialization of `apply_category_mapping`: set every row's
master_category to the configured default (`Uncategorized` when absent). -/
def cmInit (dflt : String) (d : List Row) : List Row :=
  d.map (fun r => {r with master_category := some dflt})

/-- One mapping entry of `apply_category_mapping`: rows whose category
exactly equals the original label get the master label. -/
def cmEntryStep (p : String × String) (d : List Row) : List Row :=
  d.map (fun r => if r.category == some p.1 then {r with master_category := some p.2} else r)

/-- `RulesEngine.apply_category_mapping`: initialize the master_category
column to the default, then apply each mapping pair in declared order. -/
def applyCategoryMapping (cfg : CategoryMappingCfg) (df : List Row) : List Row :=
  cfg.master_categories.foldl (fun d p => cmEntryStep p d)
    (cmInit (cfg.default_category.getD "Uncategorized") df)

/-- Column initialization of `apply_merchant_grouping`: merchant_group
starts as the raw merchant value. -/
def mgInit (d : List Row) : List Row :=
  d.map (fun r => {r with merchant_group := r.merchant})

/-- One pattern application of `apply_merchant_grouping`: rows whose raw
merchant matches the pattern get the group's master name. -/
def mgStepPat (master : String) (pat : String) (d : List Row) : List Row :=
  d.map (fun r => if optContainsCI pat r.merchant then {r with merchant_group := some master} else r)

/-- The display name written by a group: its `master_name`, defaulting to
the group's own key (`group_config.get('master_name', group_name)`). -/
def mgMaster (g : MGroup) : String := g.master_name.getD g.name

/-- `RulesEngine.apply_merchant_grouping`: initialize merchant_group to
the raw merchant, then for each group in declared order and each of its
patterns in declared order overwrite the matched rows. -/
def applyMerchantGrouping (G : List MGroup) (df : List Row) : List Row :=
  G.foldl (fun d g => g.patterns.foldl (fun d2 p => mgStepPat (mgMaster g) p d2) d) (mgInit df)

/-- Column write `result_df['year'] = ...` of `_add_derived_fields`. -/
def dfYear (d : List Row) : List Row := d.map (fun r => {r with year := some r.date.year})

/-- Column write `result_df['month'] = ...` of `_add_derived_fields`. -/
def dfMonth (d : List Row) : List Row := d.map (fun r => {r with month := some r.date.month})

/-- Column write `result_df['year_month'] = ...` of `_add_derived_fields`:
the calendar-month period key of the date. -/
def dfYearMonth (d : List Row) : List Row :=
  d.map (fun r => {r with year_month := some (r.date.year, r.date.month)})

/-- Column write `result_df['abs_amount'] = ...` of `_add_derived_fields`. -/
def dfAbs (d : List Row) : List Row := d.map (fun r => {r with abs_amount := some |r.amount|})

/-- Column write of transaction_type in `_add_derived_fields`:
`'Income' if x > 0 else 'Expense'`. -/
def dfTType (d : List Row) : List Row :=
  d.map (fun r =>
    {r with transaction_type := some (if 0 < r.amount then "Income" else "Expense")})

/-- Column initialization `result_df['account_group'] = 'unknown'`. -/
def agInit (d : List Row) : List Row :=
  d.map (fun r => {r with account_group := some "unknown"})

/-- One account-group write of `_add_derived_fields`: rows whose source
is in the group's source list get the group name. -/
def agStep (g : String × List String) (d : List Row) : List Row :=
  d.map (fun r => if (g.2).contains r.source then {r with account_group := some g.1} else r)

/-- `ExpenseProcessor._add_derived_fields`: the successive column writes
on a copy of the dataset, then the account-group loop in declared order. -/
def addDerivedFields (accountGroups : List (String × List String)) (df : List Row) : List Row :=
  accountGroups.foldl (fun d g => agStep g d)
    (agInit (dfTType (dfAbs (dfYearMonth (dfMonth (dfYear df))))))

/-
Operational model of the Python object discipline for the frame claims:
a heap of dataframe cells addressed by index.  Each stage body is
`result_df = df.copy()` (allocate a fresh cell holding the argument's
value) followed by a sequence of statements, every one of which mutates
the `result_df` cell only; the function returns the fresh reference.
-/

/-- Reads the dataframe cell behind a reference. -/
def readRef (h : List (List Row)) (i : Nat) : List Row := h.getD i []

/-- Overwrites the dataframe cell behind a reference. -/
def writeRef (h : List (List Row)) (i : Nat) (v : List Row) : List (List Row) := h.set i v

/-- `df.copy()`: allocates a fresh cell holding the argument's value. -/
def copyRef (h : List (List Row)) (i : Nat) : List (List Row) × Nat :=
  (h ++ [readRef h i], h.length)

/-- Runs a statement sequence; each statement reads `result_df` and
writes the transformed value back into the same cell. -/
def runMut (h : List (List Row)) (res : Nat) (fs : List (List Row → List Row)) :
    List (List Row) := fs.foldl (fun h2 f => writeRef h2 res (f (readRef h2 res))) h

/-- One stage as an imperative program: copy the argument, then run the
stage's statements on the copy, returning the copy's reference. -/
def stageProg (muts : List (List Row → List Row)) (h : List (List Row)) (dfRef : Nat) :
    List (List Row) × Nat :=
  let hr := copyRef h dfRef
  (runMut hr.1 hr.2 muts, hr.2)

/-- Dataset effect of one exclusion-loop iteration (the statements of
`apply_exclusions` touching `result_df`). -/
def exclusionStep (e : Exclusion) (d : List Row) : List Row :=
  if 0 < d.countP (fun r => matchesExclusion e r) then
    d.filter (fun r => !(matchesExclusion e r))
  else d

/-- Dataset effect of one custom-rule iteration (the statements of
`apply_custom_rules` touching `result_df`). -/
def ruleStep (rule : Rule) (d : List Row) : List Row :=
  if d.any (fun r => matchesRule rule.conditions r) then
    match rule.action.category with
    | some c => d.map (fun r =>
        if matchesRule rule.conditions r then {r with category := some c} else r)
    | none => d
  else d

/-- The statement sequence of `apply_exclusions` as heap mutations. -/
def exclMuts (E : List Exclusion) : List (List Row → List Row) := E.map exclusionStep

/-- The statement sequence of `apply_custom_rules` as heap mutations. -/
def ruleMuts (R : List Rule) : List (List Row → List Row) := R.map ruleStep

/-- The statement sequence of `apply_category_mapping` as heap mutations. -/
def catMuts (cfg : CategoryMappingCfg) : List (List Row → List Row) :=
  cmInit (cfg.default_category.getD "Uncategorized") :: cfg.master_categories.map cmEntryStep

/-- The statement sequence of `apply_merchant_grouping` as heap mutations. -/
def mgMuts (G : List MGroup) : List (List Row → List Row) :=
  mgInit :: G.foldr (fun g acc => g.patterns.map (fun p => mgStepPat (mgMaster g) p) ++ acc) []

/-- The statement sequence of `_add_derived_fields` as heap mutations. -/
def derivedMuts (accountGroups : List (String × List String)) : List (List Row → List Row) :=
  [dfYear, dfMonth, dfYearMonth, dfAbs, dfTType, agInit] ++ accountGroups.map agStep

/-- `apply_exclusions` at the object level. -/
def applyExclusionsProg (h : List (List Row)) (dfRef : Nat) (E : List Exclusion) :
    List (List Row) × Nat := stageProg (exclMuts E) h dfRef

/-- `apply_custom_rules` at the object level. -/
def applyCustomRulesProg (h : List (List Row)) (dfRef : Nat) (R : List Rule) :
    List (List Row) × Nat := stageProg (ruleMuts R) h dfRef

/-- `apply_category_mapping` at the object level. -/
def applyCategoryMappingProg (h : List (List Row)) (dfRef : Nat) (cfg : CategoryMappingCfg) :
    List (List Row) × Nat := stageProg (catMuts cfg) h dfRef

/-- `apply_merchant_grouping` at the object level. -/
def applyMerchantGroupingProg (h : List (List Row)) (dfRef : Nat) (G : List MGroup) :
    List (List Row) × Nat := stageProg (mgMuts G) h dfRef

/-- `_add_derived_fields` at the object level. -/
def addDerivedFieldsProg (h : List (List Row)) (dfRef : Nat)
    (accountGroups : List (String × List String)) :
    List (List Row) × Nat := stageProg (derivedMuts accountGroups) h dfRef

/-- Per-row effect of one custom rule (used to state row-count/order and
frame properties of `apply_custom_rules`). -/
def ruleRowStep (rule : Rule) (r : Row) : Row :=
  if matchesRule rule.conditions r then
    match rule.action.category with
    | some c => {r with category := some c}
    | none => r
  else r

/-- Per-row effect of the whole custom-rule list in order. -/
def rulesTransform (R : List Rule) (r : Row) : Row :=
  R.foldl (fun r2 rule => ruleRowStep rule r2) r

/-- A row with its category column blanked, for stating that a stage
leaves every other column value-for-value unchanged. -/
def stripCategory (r : Row) : Row := {r with category := none}

/-- The `(master display name, pattern)` pairs of the merchant-group
configuration, flattened in iteration order. -/
def flatPairs (G : List MGroup) : List (String × String) :=
  G.foldr (fun g acc => g.patterns.map (fun p => (mgMaster g, p)) ++ acc) []

/-- Stated from the spec's last-write-wins sentence: the merchant group
of a row is the master name of the last flattened (group, pattern) pair
whose substring test succeeds on the raw merchant, or the raw merchant
value when none matches. -/
def lastMatchGroup (G : List MGroup) (r : Row) : Option String :=
  match (flatPairs G).reverse.find? (fun q => optContainsCI q.2 r.merchant) with
  | some q => some q.1
  | none => r.merchant

/-- Stated from the spec's category-mapping sentences: the master label
of a row is the mapping's value at the row's category when the category
equals some key, and the configured default otherwise. -/
def mappedMaster (cfg : CategoryMappingCfg) (oc : Option String) : String :=
  match cfg.master_categories.find? (fun p => oc == some p.1) with
  | some p => p.2
  | none => cfg.default_category.getD "Uncategorized"

/-- The exclusion fold removes exactly the rows matching some predicate,
whatever audit log it starts from. -/
lemma exclusions_fold_fst (E : List Exclusion) :
    ∀ (df : List Row) (log : List Report),
    (E.foldl exclFoldStep (df, log)).1
      = df.filter (fun r => !(E.any (fun e => matchesExclusion e r))) := by
  induction E with
  | nil =>
    intro df log
    simp
  | cons e E ih =>
    intro df log
    rw [List.foldl_cons]
    by_cases h : 0 < df.countP (fun r => matchesExclusion e r)
    · rw [show exclFoldStep (df, log) e
          = (df.filter (fun r => !(matchesExclusion e r)),
             log ++ [⟨e.reason.getD "No reason provided",
                      df.countP (fun r => matchesExclusion e r)⟩]) from by
        simp [exclFoldStep, h]]
      rw [ih]
      rw [List.filter_filter]
      apply List.filter_congr
      intro r _
      simp [Bool.not_or, Bool.and_comm]
    · rw [show exclFoldStep (df, log) e = (df, log) from by simp [exclFoldStep, h]]
      rw [ih]
      apply List.filter_congr
      intro r hr
      have hz : df.countP (fun r => matchesExclusion e r) = 0 := Nat.eq_zero_of_not_pos h
      have hne := (List.countP_eq_zero.mp hz) r hr
      simp [hne]

/-- `apply_exclusions` is the order-preserving filter keeping the rows
that match no configured predicate. -/
lemma applyExclusions_fst (E : List Exclusion) (df : List Row) :
    (applyExclusions E df).1
      = df.filter (fun r => !(E.any (fun e => matchesExclusion e r))) :=
  exclusions_fold_fst E df []

/-- The custom-rule fold acts on rows pointwise, whatever audit log it
starts from: its dataset output is the input mapped through the per-row
transform of the rule list. -/
lemma rules_fold_fst (R : List Rule) :
    ∀ (df : List Row) (log : List Report),
    (R.foldl ruleFoldStep (df, log)).1 = df.map (rulesTransform R) := by
  induction R with
  | nil =>
    intro df log
    rw [show rulesTransform [] = fun r => r from rfl]
    exact (List.map_id' df).symm
  | cons rule R ih =>
    intro df log
    rw [List.foldl_cons]
    have hstep : ∀ d : List Row,
        d.map (rulesTransform (rule :: R)) = (d.map (ruleRowStep rule)).map (rulesTransform R) := by
      intro d
      rw [List.map_map]
      rfl
    by_cases h : df.any (fun r => matchesRule rule.conditions r)
    · cases hact : rule.action.category with
      | some c =>
        rw [show ruleFoldStep (df, log) rule
            = (df.map (fun r =>
                if matchesRule rule.conditions r then {r with category := some c} else r),
               log ++ [⟨rule.name.getD "Unknown",
                        df.countP (fun r => matchesRule rule.conditions r)⟩]) from by
          simp [ruleFoldStep, h, hact]]
        rw [ih, hstep]
        congr 1
        apply List.map_congr_left
        intro r _
        by_cases hm : matchesRule rule.conditions r <;> simp [ruleRowStep, hm, hact]
      | none =>
        rw [show ruleFoldStep (df, log) rule
            = (df, log ++ [⟨rule.name.getD "Unknown",
                            df.countP (fun r => matchesRule rule.conditions r)⟩]) from by
          simp [ruleFoldStep, h, hact]]
        rw [ih, hstep]
        have : df.map (ruleRowStep rule) = df := by
          rw [show df.map (ruleRowStep rule) = df.map (fun a => a) from
            List.map_congr_left (fun r _ => by simp [ruleRowStep, hact])]
          exact List.map_id' df
        rw [this]
    · rw [show ruleFoldStep (df, log) rule = (df, log) from by simp [ruleFoldStep, h]]
      rw [ih, hstep]
      have hall := List.any_eq_false.mp (Bool.eq_false_iff.mpr h)
      have : df.map (ruleRowStep rule) = df := by
        rw [show df.map (ruleRowStep rule) = df.map (fun a => a) from
          List.map_congr_left (fun r hr => by simp [ruleRowStep, hall r hr])]
        exact List.map_id' df
      rw [this]

/-- `apply_custom_rules` maps the per-row transform over the dataset. -/
lemma applyCustomRules_fst (R : List Rule) (df : List Row) :
    (applyCustomRules R df).1 = df.map (rulesTransform R) :=
  rules_fold_fst R df []

/-- A guarded overwrite of an accumulator by a list entry. -/
def gstep {γ β : Type} (p : γ → Bool) (val : γ → β) (acc : β) (q : γ) : β :=
  if p q then val q else acc

/-- A fold of guarded overwrites keeps the last written value: the value
of the last list entry passing the test, or the initial value. -/
lemma foldl_lastWrite {γ β : Type} (p : γ → Bool) (val : γ → β) :
    ∀ (l : List γ) (init : β),
    l.foldl (gstep p val) init = ((l.reverse.find? p).map val).getD init := by
  intro l
  induction l with
  | nil => intro init; rfl
  | cons q t ih =>
    intro init
    rw [List.foldl_cons, ih, List.reverse_cons, List.find?_append]
    cases h : t.reverse.find? p with
    | some a => simp [Option.or]
    | none =>
      by_cases hq : p q <;> simp [gstep, Option.or, List.find?, hq]

/-- A fold of dataset-level maps is the map of the per-row fold. -/
lemma foldl_map_rows {α γ : Type} (step : γ → α → α) :
    ∀ (l : List γ) (d : List α),
    l.foldl (fun d2 q => d2.map (step q)) d
      = d.map (fun r => l.foldl (fun r2 q => step q r2) r) := by
  intro l
  induction l with
  | nil =>
    intro d
    simp
  | cons q t ih =>
    intro d
    rw [List.foldl_cons, ih, List.map_map]
    simp only [List.foldl_cons]
    rfl

/-- When a predicate singles out at most one value of the list, searching
the reversed list finds the same value as searching the list. -/
lemma find?_reverse_eq {α : Type} (p : α → Bool) (l : List α)
    (h : ∀ a ∈ l, ∀ b ∈ l, p a = true → p b = true → a = b) :
    l.reverse.find? p = l.find? p := by
  cases h1 : l.reverse.find? p with
  | none =>
    rw [List.find?_eq_none] at h1
    symm
    rw [List.find?_eq_none]
    intro x hx
    exact h1 x (List.mem_reverse.mpr hx)
  | some a =>
    have ha := List.find?_some h1
    have hma := List.mem_reverse.mp (List.mem_of_find?_eq_some h1)
    cases h2 : l.find? p with
    | none =>
      rw [List.find?_eq_none] at h2
      exact absurd ha (h2 a hma)
    | some b =>
      have hb := List.find?_some h2
      have hmb := List.mem_of_find?_eq_some h2
      rw [h a hma b hmb ha hb]

/-- Per-row effect of the category-mapping entry fold: only the
master_category field changes, receiving the last matching entry's value. -/
lemma rowfold_cm (pairs : List (String × String)) :
    ∀ r0 : Row,
    pairs.foldl (fun r2 p =>
        if r2.category == some p.1 then {r2 with master_category := some p.2} else r2) r0
      = {r0 with master_category := (pairs.foldl
          (gstep (fun p => r0.category == some p.1) (fun p => some p.2))
          r0.master_category)} := by
  induction pairs with
  | nil => intro r0; rfl
  | cons q t ih =>
    intro r0
    rw [List.foldl_cons, List.foldl_cons]
    by_cases h : r0.category == some q.1
    · rw [if_pos h,
          show gstep (fun p => r0.category == some p.1) (fun p => some p.2)
              r0.master_category q = some q.2 from by simp [gstep, h],
          ih]
    · rw [if_neg h,
          show gstep (fun p => r0.category == some p.1) (fun p => some p.2)
              r0.master_category q = r0.master_category from by simp [gstep, h],
          ih]

/-- Per-row effect of the merchant-grouping pattern fold: only the
merchant_group field changes, receiving the last matching pair's name. -/
lemma rowfold_mg (pairs : List (String × String)) :
    ∀ r0 : Row,
    pairs.foldl (fun r2 q =>
        if optContainsCI q.2 r2.merchant then {r2 with merchant_group := some q.1} else r2) r0
      = {r0 with merchant_group := (pairs.foldl
          (gstep (fun q => optContainsCI q.2 r0.merchant) (fun q => some q.1))
          r0.merchant_group)} := by
  induction pairs with
  | nil => intro r0; rfl
  | cons q t ih =>
    intro r0
    rw [List.foldl_cons, List.foldl_cons]
    by_cases h : optContainsCI q.2 r0.merchant
    · rw [if_pos h,
          show gstep (fun q => optContainsCI q.2 r0.merchant) (fun q => some q.1)
              r0.merchant_group q = some q.1 from by simp [gstep, h],
          ih]
    · rw [if_neg h,
          show gstep (fun q => optContainsCI q.2 r0.merchant) (fun q => some q.1)
              r0.merchant_group q = r0.merchant_group from by simp [gstep, h],
          ih]

/-- The nested group/pattern loops of `apply_merchant_grouping` equal a
single fold over the flattened (master name, pattern) pairs. -/
lemma mg_flatten (G : List MGroup) :
    ∀ d : List Row,
    G.foldl (fun d2 g => g.patterns.foldl (fun d3 p => mgStepPat (mgMaster g) p d3) d2) d
      = (flatPairs G).foldl (fun d2 q => mgStepPat q.1 q.2 d2) d := by
  induction G with
  | nil => intro d; rfl
  | cons g G ih =>
    intro d
    rw [List.foldl_cons, ih]
    rw [show flatPairs (g :: G)
        = g.patterns.map (fun p => (mgMaster g, p)) ++ flatPairs G from rfl]
    rw [List.foldl_append, List.foldl_map]

/-- The custom-rule fold only appends to the audit log it is given:
running it from any log equals running it from the empty log and
prefixing. -/
lemma rules_fold_log (R : List Rule) :
    ∀ (df : List Row) (log : List Report),
    R.foldl ruleFoldStep (df, log)
      = ((R.foldl ruleFoldStep (df, [])).1, log ++ (R.foldl ruleFoldStep (df, [])).2) := by
  induction R with
  | nil => intro df log; simp
  | cons rule R ih =>
    intro df log
    rw [List.foldl_cons, List.foldl_cons]
    by_cases h : df.any (fun r => matchesRule rule.conditions r)
    · rw [show ruleFoldStep (df, log) rule
          = ((ruleFoldStep (df, []) rule).1,
             log ++ [⟨rule.name.getD "Unknown",
                      df.countP (fun r => matchesRule rule.conditions r)⟩]) from by
        simp [ruleFoldStep, h]]
      rw [show ruleFoldStep (df, []) rule
          = ((ruleFoldStep (df, []) rule).1,
             [⟨rule.name.getD "Unknown",
               df.countP (fun r => matchesRule rule.conditions r)⟩]) from by
        simp [ruleFoldStep, h]]
      rw [ih, ih ((ruleFoldStep (df, []) rule).1)
            [⟨rule.name.getD "Unknown", df.countP (fun r => matchesRule rule.conditions r)⟩]]
      simp
    · rw [show ruleFoldStep (df, log) rule = (df, log) from by simp [ruleFoldStep, h]]
      rw [show ruleFoldStep (df, []) rule = (df, ([] : List Report)) from by
        simp [ruleFoldStep, h]]
      exact ih df log

/-- Writing one cell leaves every other cell unchanged. -/
lemma readRef_writeRef_ne (h : List (List Row)) (i j : Nat) (v : List Row) (hne : i ≠ j) :
    readRef (writeRef h i v) j = readRef h j := by
  unfold readRef writeRef
  rw [List.getD_eq_getElem?_getD, List.getD_eq_getElem?_getD, List.getElem?_set_ne hne]

/-- A statement sequence mutating one cell leaves every other cell
unchanged. -/
lemma runMut_read_ne (res j : Nat) (hne : j ≠ res) :
    ∀ (fs : List (List Row → List Row)) (h : List (List Row)),
    readRef (runMut h res fs) j = readRef h j := by
  intro fs
  induction fs with
  | nil => intro h; rfl
  | cons f t ih =>
    intro h
    rw [show runMut h res (f :: t)
        = runMut (writeRef h res (f (readRef h res))) res t from rfl]
    rw [ih]
    exact readRef_writeRef_ne h res j _ (fun hx => hne hx.symm)

/-- A stage program (copy, then mutate the copy) leaves the cell of the
dataframe it was handed unchanged. -/
lemma stageProg_preserves (muts : List (List Row → List Row)) (h : List (List Row))
    (dfRef : Nat) (hdf : dfRef < h.length) :
    readRef (stageProg muts h dfRef).1 dfRef = readRef h dfRef := by
  unfold stageProg copyRef
  rw [runMut_read_ne h.length dfRef (Nat.ne_of_lt hdf)]
  unfold readRef
  exact List.getD_append h [readRef h dfRef] [] dfRef hdf

/-- Concrete date used by the witness datasets. -/
def sampleDate : SDate := ⟨2025, 6, 30⟩

/-- A concrete card-payment row (the spec's section 8 scenario). -/
def rowA : Row :=
  { date := sampleDate, merchant := some "Payment Thank You-Mobile", type := "Payment",
    category := none, amount := -100, source := "cardA", account_owner := "shared",
    source_file := "t.csv" }

/-- A concrete sale row of the same source. -/
def rowB : Row :=
  { rowA with type := "Sale", amount := -50, merchant := some "AMAZON MKTPL" }

/-- The spec's section 8 exclusion predicate. -/
def wExcl : Exclusion := { source := some "cardA", type := some "Payment" }

/-- C1: apply_exclusions returns exactly the input rows matching no
predicate, in original relative order (an order-preserving filter); a row
matches a predicate iff every specified sub-condition holds of it, an
omitted sub-condition constrains nothing, and a predicate with zero
sub-conditions matches every row. -/
theorem c1_apply_exclusions_semantics :
    ∀ (E : List Exclusion) (D : List Row),
    ((applyExclusions E D).1
        = D.filter (fun r => !(E.any (fun e => matchesExclusion e r)))) ∧
    (∀ (e : Exclusion) (r : Row),
      matchesExclusion e r = true ↔
        ((∀ v, e.source = some v → r.source = v) ∧
         (∀ v, e.type = some v → r.type = v) ∧
         (∀ v, e.category = some v → r.category = some v) ∧
         (∀ p, e.description_contains = some p → optContainsCI p r.merchant = true))) ∧
    (∀ (r : Row) (rsn : Option String),
      matchesExclusion { reason := rsn } r = true) := by
  intro E D
  refine ⟨applyExclusions_fst E D, ?_, ?_⟩
  · intro e r
    obtain ⟨s, t, c, dc, rs⟩ := e
    cases s <;> cases t <;> cases c <;> cases dc <;>
      simp [matchesExclusion, and_assoc]
  · intro r rsn
    rfl

/-- C1 witness: the section 8 scenario, evaluated through the theorem:
the predicate removes exactly the Payment row, keeping the Sale row. -/
theorem c1_witness : (applyExclusions [wExcl] [rowA, rowB]).1 = [rowB] := by
  rw [(c1_apply_exclusions_semantics [wExcl] [rowA, rowB]).1]
  rfl

/-- C2: exclusion only removes rows (the output is a sublist of the
input, so no row is added or altered), and applying the same exclusion
list to its own output removes nothing further. -/
theorem c2_exclusions_monotone_idempotent :
    ∀ (E : List Exclusion) (D : List Row),
    ((applyExclusions E D).1.Sublist D) ∧
    ((applyExclusions E (applyExclusions E D).1).1 = (applyExclusions E D).1) := by
  intro E D
  constructor
  · rw [applyExclusions_fst]
    exact List.filter_sublist D
  · rw [applyExclusions_fst, applyExclusions_fst E D, List.filter_filter]
    apply List.filter_congr
    intro r _
    exact Bool.and_self _

/-- C3: apply_custom_rules returns a dataset of identical row count with
every row in its original position; the output is the input mapped
row-by-row (positionally) through the rule list's per-row transform, so
only field values can differ. -/
theorem c3_custom_rules_shape :
    ∀ (R : List Rule) (D : List Row),
    ((applyCustomRules R D).1 = D.map (rulesTransform R)) ∧
    ((applyCustomRules R D).1.length = D.length) := by
  intro R D
  refine ⟨applyCustomRules_fst R D, ?_⟩
  rw [applyCustomRules_fst]
  exact List.length_map D _

/-- The per-row transform of a rule list touches no field but category. -/
lemma strip_rulesTransform (R : List Rule) :
    ∀ r : Row, stripCategory (rulesTransform R r) = stripCategory r := by
  induction R with
  | nil => intro r; rfl
  | cons rule R ih =>
    intro r
    rw [show rulesTransform (rule :: R) r = rulesTransform R (ruleRowStep rule r) from rfl, ih]
    unfold ruleRowStep stripCategory
    by_cases h : matchesRule rule.conditions r
    · rw [if_pos h]
      cases rule.action.category <;> rfl
    · rw [if_neg h]

/-- A rule list whose actions carry no category key transforms no row. -/
lemma rulesTransform_id_of_none (R : List Rule)
    (hnone : ∀ rule ∈ R, rule.action.category = none) :
    ∀ r : Row, rulesTransform R r = r := by
  induction R with
  | nil => intro r; rfl
  | cons rule R ih =>
    intro r
    rw [show rulesTransform (rule :: R) r = rulesTransform R (ruleRowStep rule r) from rfl]
    rw [show ruleRowStep rule r = r from by
      unfold ruleRowStep
      rw [hnone rule (List.mem_cons_self rule R)]
      exact ite_self r]
    exact ih (fun q hq => hnone q (List.mem_cons_of_mem rule hq)) r

/-- C9: apply_custom_rules writes only the category column: blanking the
category columns of input and output gives identical datasets, and a
rule list whose actions contain no category key (whatever flag or other
action keys they carry) changes nothing at all. -/
theorem c9_custom_rules_only_category :
    ∀ (R : List Rule) (D : List Row),
    ((applyCustomRules R D).1.map stripCategory = D.map stripCategory) ∧
    ((∀ rule ∈ R, rule.action.category = none) → (applyCustomRules R D).1 = D) := by
  intro R D
  constructor
  · rw [applyCustomRules_fst, List.map_map]
    apply List.map_congr_left
    intro r _
    exact strip_rulesTransform R r
  · intro hnone
    rw [applyCustomRules_fst]
    rw [show D.map (rulesTransform R) = D.map (fun a => a) from
      List.map_congr_left (fun r _ => rulesTransform_id_of_none R hnone r)]
    exact List.map_id' D

/-- A rule whose action has a flag but no category key. -/
def wRuleFlagOnly : Rule :=
  { name := some "flag only", conditions := {},
    action := { flag := some "primary_income" } }

/-- C9 witness: a flag-only rule matching every row changes nothing. -/
theorem c9_witness : (applyCustomRules [wRuleFlagOnly] [rowA, rowB]).1 = [rowA, rowB] :=
  (c9_custom_rules_only_category [wRuleFlagOnly] [rowA, rowB]).2 (by decide)

/-- A rule whose conditions match no row of the witness dataset. -/
def zeroMatchRule : Rule :=
  { name := some "NoMatch", conditions := { source := some "apple_card_joe" },
    action := { category := some "X" } }

/-- C6 counterexample: a custom rule matching zero rows produces no audit
report at all, not a report with count 0 — the print is guarded by
`if mask.any()`, so the claimed zero-count report never happens. -/
theorem c6_counterexample :
    ([rowA].countP (fun r => matchesRule zeroMatchRule.conditions r) = 0) ∧
    (applyCustomRules [zeroMatchRule] [rowA]).2 = [] := by
  constructor <;> rfl

/-- C6 amended: audit logs concatenate across the rule list; a single
rule reports its configured name and matched-row count exactly when it
matches at least one row, and reports nothing when it matches zero rows
— the same silence apply_exclusions shows for a zero-match predicate. -/
theorem c6_reporting :
    (∀ (R1 R2 : List Rule) (D : List Row),
      applyCustomRules (R1 ++ R2) D
        = ((applyCustomRules R2 (applyCustomRules R1 D).1).1,
           (applyCustomRules R1 D).2 ++ (applyCustomRules R2 (applyCustomRules R1 D).1).2)) ∧
    (∀ (rule : Rule) (D : List Row),
      (applyCustomRules [rule] D).2
        = if 0 < D.countP (fun r => matchesRule rule.conditions r)
          then [⟨rule.name.getD "Unknown", D.countP (fun r => matchesRule rule.conditions r)⟩]
          else []) ∧
    (∀ (e : Exclusion) (D : List Row),
      (applyExclusions [e] D).2
        = if 0 < D.countP (fun r => matchesExclusion e r)
          then [⟨e.reason.getD "No reason provided", D.countP (fun r => matchesExclusion e r)⟩]
          else []) := by
  refine ⟨?_, ?_, ?_⟩
  · intro R1 R2 D
    unfold applyCustomRules
    rw [List.foldl_append]
    calc R2.foldl ruleFoldStep (R1.foldl ruleFoldStep (D, []))
        = R2.foldl ruleFoldStep
            ((R1.foldl ruleFoldStep (D, [])).1, (R1.foldl ruleFoldStep (D, [])).2) := by
          rw [Prod.mk.eta]
      _ = _ := rules_fold_log R2 (R1.foldl ruleFoldStep (D, [])).1 (R1.foldl ruleFoldStep (D, [])).2
  · intro rule D
    show (ruleFoldStep (D, []) rule).2 = _
    by_cases h : D.any (fun r => matchesRule rule.conditions r)
    · have hc : 0 < D.countP (fun r => matchesRule rule.conditions r) :=
        List.countP_pos_iff.mpr (List.any_eq_true.mp h)
      simp [ruleFoldStep, h, hc]
    · have hc : ¬ 0 < D.countP (fun r => matchesRule rule.conditions r) := fun hpos =>
        h (List.any_eq_true.mpr (List.countP_pos_iff.mp hpos))
      simp [ruleFoldStep, h, hc]
  · intro e D
    show (exclFoldStep (D, []) e).2 = _
    by_cases h : 0 < D.countP (fun r => matchesExclusion e r)
    · simp [exclFoldStep, h]
    · simp [exclFoldStep, h]

/-- C8: after the derived-field stage, transaction_type is Income exactly
on the rows with strictly positive amount and Expense on all others; in
particular a zero amount classifies as Expense and 0.01 as Income. -/
theorem c8_transaction_type :
    (∀ (ag : List (String × List String)) (D : List Row),
      (addDerivedFields ag D).map (fun r => r.transaction_type)
        = D.map (fun r => some (if 0 < r.amount then "Income" else "Expense"))) ∧
    ((addDerivedFields [] [{rowA with amount := 0}]).map (fun r => r.transaction_type)
        = [some "Expense"]) ∧
    ((addDerivedFields [] [{rowA with amount := (1 : Rat) / 100}]).map
        (fun r => r.transaction_type) = [some "Income"]) := by
  have hmain : ∀ (ag : List (String × List String)) (D : List Row),
      (addDerivedFields ag D).map (fun r => r.transaction_type)
        = D.map (fun r => some (if 0 < r.amount then "Income" else "Expense")) := by
    intro ag D
    unfold addDerivedFields
    have hfold : ∀ (l : List (String × List String)) (d : List Row),
        (l.foldl (fun d2 g => agStep g d2) d).map (fun r => r.transaction_type)
          = d.map (fun r => r.transaction_type) := by
      intro l
      induction l with
      | nil => intro d; rfl
      | cons g t ih =>
        intro d
        rw [List.foldl_cons, ih]
        unfold agStep
        rw [List.map_map]
        apply List.map_congr_left
        intro r _
        show (if (g.2).contains r.source = true then _ else r).transaction_type = _
        split <;> rfl
    rw [hfold]
    unfold agInit dfTType dfAbs dfYearMonth dfMonth dfYear
    simp only [List.map_map]
    rfl
  refine ⟨hmain, ?_, ?_⟩
  · rw [hmain]
    norm_num
  · rw [hmain]
    norm_num

/-- C10: each stage copies the dataframe it is handed and mutates only
the copy: at the object level, the cell behind the argument reference
holds the same dataset after the call as before, for all five stages. -/
theorem c10_stages_nondestructive :
    ∀ (h : List (List Row)) (dfRef : Nat), dfRef < h.length →
    ∀ (E : List Exclusion) (R : List Rule) (cfg : CategoryMappingCfg) (G : List MGroup)
      (ag : List (String × List String)),
    readRef (applyExclusionsProg h dfRef E).1 dfRef = readRef h dfRef ∧
    readRef (applyCustomRulesProg h dfRef R).1 dfRef = readRef h dfRef ∧
    readRef (applyCategoryMappingProg h dfRef cfg).1 dfRef = readRef h dfRef ∧
    readRef (applyMerchantGroupingProg h dfRef G).1 dfRef = readRef h dfRef ∧
    readRef (addDerivedFieldsProg h dfRef ag).1 dfRef = readRef h dfRef := by
  intro h dfRef hlt E R cfg G ag
  exact ⟨stageProg_preserves (exclMuts E) h dfRef hlt,
         stageProg_preserves (ruleMuts R) h dfRef hlt,
         stageProg_preserves (catMuts cfg) h dfRef hlt,
         stageProg_preserves (mgMuts G) h dfRef hlt,
         stageProg_preserves (derivedMuts ag) h dfRef hlt⟩

/-- C10 witness: on a one-cell heap holding a concrete row, running the
exclusion stage program leaves the argument's cell untouched. -/
theorem c10_witness :
    readRef (applyExclusionsProg [[rowA]] 0 [wExcl]).1 0 = readRef [[rowA]] 0 :=
  (c10_stages_nondestructive [[rowA]] 0 (by decide) [wExcl] [] {} [] []).1

/-- C4: after the category-mapping stage every row carries a
master_category: the mapped master label when the row's category equals
some mapping key (keys are unique, coming from a YAML dict), and the
configured default label otherwise; unmapped categories are ordinary,
not errors. -/
theorem c4_category_mapping (cfg : CategoryMappingCfg) (D : List Row)
    (huniq : (cfg.master_categories.map Prod.fst).Nodup) :
    applyCategoryMapping cfg D
      = D.map (fun r => {r with master_category := some (mappedMaster cfg r.category)}) := by
  unfold applyCategoryMapping
  simp only [cmEntryStep]
  rw [foldl_map_rows]
  unfold cmInit
  rw [List.map_map]
  apply List.map_congr_left
  intro r _
  have hu : ∀ a ∈ cfg.master_categories, ∀ b ∈ cfg.master_categories,
      (r.category == some a.1) = true → (r.category == some b.1) = true → a = b := by
    intro a ha b hb hpa hpb
    have h1 : r.category = some a.1 := eq_of_beq hpa
    have h2 : r.category = some b.1 := eq_of_beq hpb
    exact List.inj_on_of_nodup_map huniq ha hb (Option.some.inj (h1.symm.trans h2))
  show (cfg.master_categories.foldl (fun (r2 : Row) (p : String × String) =>
      if r2.category == some p.1 then {r2 with master_category := some p.2} else r2)
      ({r with master_category := some (cfg.default_category.getD "Uncategorized")} : Row)) = _
  rw [rowfold_cm, foldl_lastWrite]
  show ({r with master_category :=
      ((cfg.master_categories.reverse.find? (fun p => r.category == some p.1)).map
        (fun p => some p.2)).getD (some (cfg.default_category.getD "Uncategorized"))} : Row) = _
  rw [find?_reverse_eq _ _ hu]
  unfold mappedMaster
  cases h : cfg.master_categories.find? (fun p => r.category == some p.1) with
  | some p => simp
  | none => simp

/-- The section 8 category-mapping scenario configuration. -/
def wCfg : CategoryMappingCfg :=
  { master_categories := [("Shopping", "Discretionary")],
    default_category := some "Uncategorized" }

/-- A concrete shopping row. -/
def wRowShop : Row := { rowA with category := some "Shopping" }

/-- A concrete row with an unmapped category. -/
def wRowUtil : Row := { rowA with category := some "Utilities" }

/-- C4 witness: the section 8 scenario, evaluated through the theorem:
Shopping maps to Discretionary, Utilities falls back to Uncategorized. -/
theorem c4_witness :
    applyCategoryMapping wCfg [wRowShop, wRowUtil]
      = [{wRowShop with master_category := some "Discretionary"},
         {wRowUtil with master_category := some "Uncategorized"}] := by
  rw [c4_category_mapping wCfg [wRowShop, wRowUtil] (by decide)]
  rfl

/-- C5: after the merchant-grouping stage, each row's merchant_group is
the master display name of the last (group, pattern) pair in configured
iteration order whose case-insensitive test succeeds on the row's raw
merchant, and the raw merchant value when no pattern matches — so of two
groups matching one row, the later-declared group wins. -/
theorem c5_merchant_grouping_last_wins :
    ∀ (G : List MGroup) (D : List Row),
    applyMerchantGrouping G D
      = D.map (fun r => {r with merchant_group := lastMatchGroup G r}) := by
  intro G D
  unfold applyMerchantGrouping
  rw [mg_flatten]
  simp only [mgStepPat]
  rw [foldl_map_rows]
  unfold mgInit
  rw [List.map_map]
  apply List.map_congr_left
  intro r _
  show ((flatPairs G).foldl (fun (r2 : Row) (q : String × String) =>
      if optContainsCI q.2 r2.merchant then {r2 with merchant_group := some q.1} else r2)
      ({r with merchant_group := r.merchant} : Row)) = _
  rw [rowfold_mg, foldl_lastWrite]
  show ({r with merchant_group :=
      (((flatPairs G).reverse.find? (fun q => optContainsCI q.2 r.merchant)).map
        (fun q => some q.1)).getD r.merchant} : Row) = _
  unfold lastMatchGroup
  cases (flatPairs G).reverse.find? (fun q => optContainsCI q.2 r.merchant) with
  | some q => rfl
  | none => rfl

/-- The regex of a literal word: the concatenation of its characters. -/
def litRe (w : List Char) : Regex :=
  w.foldr (fun c r => .cat (.ch (.lit c)) r) .eps

/-- A plain pattern character differs from every metacharacter. -/
lemma plain_spec (c : Char) (h : isPlainChar c = true) :
    (c == '(') = false ∧ (c == ')') = false ∧ (c == '[') = false ∧ (c == ']') = false ∧
    (c == '\\') = false ∧ (c == '.') = false ∧ (c == '*') = false ∧ (c == '+') = false ∧
    (c == '?') = false ∧ (c == '|') = false ∧ (c == '^') = false ∧ (c == '$') = false ∧
    (c == lbrace) = false ∧ (c == rbrace) = false := by
  have h2 := h
  unfold isPlainChar at h2
  rw [Bool.not_eq_true'] at h2
  simp only [Bool.or_eq_false_iff] at h2
  obtain ⟨⟨⟨⟨⟨⟨⟨⟨⟨⟨⟨⟨⟨a1, a2⟩, a3⟩, a4⟩, a5⟩, a6⟩, a7⟩, a8⟩, a9⟩, a10⟩,
      a11⟩, a12⟩, a13⟩, a14⟩ := h2
  exact ⟨a1, a2, a3, a4, a5, a6, a7, a8, a9, a10, a11, a12, a13, a14⟩

/-- A plain character parses as the literal atom. -/
lemma parseAtom_plain (c : Char) (rest : List Char) (h : isPlainChar c = true) :
    ∀ fuel : Nat, 1 ≤ fuel → parseAtom fuel (c :: rest) = some (.ch (.lit c), rest) := by
  intro fuel hf
  obtain ⟨f, rfl⟩ : ∃ f, fuel = f + 1 := ⟨fuel - 1, (Nat.succ_pred_eq_of_pos hf).symm⟩
  obtain ⟨h1, _, h3, _, h5, h6, _⟩ := plain_spec c h
  simp [parseAtom, h1, h3, h5, h6, h]

/-- A plain character followed by no quantifier parses as an unrepeated
literal atom. -/
lemma parseRep_plain (c : Char) (rest : List Char) (hc : isPlainChar c = true)
    (hrest : rest = [] ∨ ∃ d rest2, rest = d :: rest2 ∧ isPlainChar d = true) :
    ∀ fuel : Nat, 2 ≤ fuel → parseRep fuel (c :: rest) = some (.ch (.lit c), rest) := by
  intro fuel hf
  obtain ⟨f, rfl⟩ : ∃ f, fuel = f + 1 :=
    ⟨fuel - 1, (Nat.succ_pred_eq_of_pos (Nat.lt_of_lt_of_le Nat.zero_lt_two hf)).symm⟩
  have hfa : 1 ≤ f := by omega
  rcases hrest with hnil | ⟨d, rest2, hcons, hd⟩
  · subst hnil
    simp [parseRep, parseAtom_plain c [] hc f hfa]
  · subst hcons
    obtain ⟨_, _, _, _, _, _, hd7, hd8, hd9, _, _, _, hd13, _⟩ := plain_spec d hd
    simp [parseRep, parseAtom_plain c (d :: rest2) hc f hfa, hd7, hd8, hd9, hd13]

/-- A pattern of plain characters parses, at the concatenation level, as
the literal word regex consuming the whole input. -/
lemma parseCat_plain :
    ∀ (w : List Char), (∀ c ∈ w, isPlainChar c = true) →
    ∀ fuel : Nat, 2 * w.length + 1 ≤ fuel → parseCat fuel w = some (litRe w, []) := by
  intro w
  induction w with
  | nil =>
    intro _ fuel hf
    obtain ⟨f, rfl⟩ : ∃ f, fuel = f + 1 := ⟨fuel - 1, (Nat.succ_pred_eq_of_pos hf).symm⟩
    simp [parseCat, litRe]
  | cons c w' ih =>
    intro hplain fuel hf
    obtain ⟨f, rfl⟩ : ∃ f, fuel = f + 1 :=
      ⟨fuel - 1, (Nat.succ_pred_eq_of_pos (by omega)).symm⟩
    have hc : isPlainChar c = true := hplain c (List.mem_cons_self c w')
    have hw' : ∀ x ∈ w', isPlainChar x = true :=
      fun x hx => hplain x (List.mem_cons_of_mem c hx)
    obtain ⟨_, h2, _, _, _, _, _, _, _, h10, _⟩ := plain_spec c hc
    have hrest : w' = [] ∨ ∃ d rest2, w' = d :: rest2 ∧ isPlainChar d = true := by
      cases w' with
      | nil => exact Or.inl rfl
      | cons d rest2 =>
        exact Or.inr ⟨d, rest2, rfl, hw' d (List.mem_cons_self d rest2)⟩
    have hrep := parseRep_plain c w' hc hrest f (by simp at hf; omega)
    have hcat := ih hw' f (by simp at hf; omega)
    simp [parseCat, h2, h10, hrep, hcat, litRe]

/-- A pattern of plain characters parses as the literal word regex. -/
lemma parseAlt_plain (w : List Char) (hplain : ∀ c ∈ w, isPlainChar c = true)
    (fuel : Nat) (hf : 2 * w.length + 2 ≤ fuel) :
    parseAlt fuel w = some (litRe w, []) := by
  obtain ⟨f, rfl⟩ : ∃ f, fuel = f + 1 := ⟨fuel - 1, (Nat.succ_pred_eq_of_pos (by omega)).symm⟩
  have hcat := parseCat_plain w hplain f (by omega)
  simp [parseAlt, hcat]

/-- Compiling a metacharacter-free pattern yields its literal word regex. -/
lemma parsePat_plain (pat : String) (h : pat.toList.all isPlainChar = true) :
    parsePat pat = some (litRe pat.toList) := by
  unfold parsePat
  have hplain : ∀ c ∈ pat.toList, isPlainChar c = true := fun c hc => by
    exact List.all_eq_true.mp h c hc
  have hlen : pat.toList.length = pat.length := rfl
  rw [parseAlt_plain pat.toList hplain (4 * pat.length + 8) (by omega)]

/-- Prefix-matching distributes over alternation. -/
lemma hmf_alt (a b : Regex) :
    ∀ s, hasMatchFrom (.alt a b) s = (hasMatchFrom a s || hasMatchFrom b s) := by
  intro s
  induction s generalizing a b with
  | nil => rfl
  | cons c cs ih =>
    show (nullable (.alt a b) || hasMatchFrom (.alt (deriv a c) (deriv b c)) cs) = _
    rw [ih]
    show ((nullable a || nullable b) || (_ || _)) = ((nullable a || _) || (nullable b || _))
    cases nullable a <;> cases nullable b <;>
      cases hasMatchFrom (deriv a c) cs <;> cases hasMatchFrom (deriv b c) cs <;> rfl

/-- A concatenation headed by the empty regex matches no prefix. -/
lemma hmf_empcat (r : Regex) : ∀ s, hasMatchFrom (.cat .emp r) s = false := by
  intro s
  induction s with
  | nil => rfl
  | cons c cs ih =>
    show (nullable (.cat .emp r) || hasMatchFrom (.cat .emp r) cs) = false
    rw [ih]
    rfl

/-- A concatenation headed by epsilon matches the prefixes its tail does. -/
lemma hmf_epscat (r : Regex) : ∀ s, hasMatchFrom (.cat .eps r) s = hasMatchFrom r s := by
  intro s
  cases s with
  | nil => exact Bool.true_and (nullable r)
  | cons c cs =>
    show (nullable (.cat .eps r) || hasMatchFrom (.alt (.cat .emp r) (deriv r c)) cs) = _
    rw [hmf_alt, hmf_empcat]
    show ((true && nullable r) || (false || _)) = _
    rw [Bool.true_and, Bool.false_or]
    rfl

/-- A literal word regex matches a prefix of a string exactly when the
lower-cased word is a prefix of the lower-cased string. -/
lemma hmf_lit : ∀ (w s : List Char),
    hasMatchFrom (litRe w) s = List.isPrefixOf (lowerL w) (lowerL s) := by
  intro w
  induction w with
  | nil =>
    intro s
    cases s <;> rfl
  | cons d w' ih =>
    intro s
    cases s with
    | nil => rfl
    | cons c cs =>
      show (nullable (litRe (d :: w'))
          || hasMatchFrom (.cat (if cmTest (.lit d) c then .eps else .emp) (litRe w')) cs) = _
      by_cases hm : cmTest (.lit d) c = true
      · rw [if_pos hm, hmf_epscat, ih cs]
        have hm2 : c.toLower = d.toLower := eq_of_beq hm
        show (false || _) = ((d.toLower == c.toLower) && _)
        rw [Bool.false_or, beq_iff_eq.mpr hm2.symm, Bool.true_and]
        rfl
      · rw [if_neg hm, hmf_empcat]
        have hm2 : ¬ c.toLower = d.toLower := fun he => hm (beq_iff_eq.mpr he)
        show false = ((d.toLower == c.toLower) && _)
        rw [show (d.toLower == c.toLower) = false from
          beq_eq_false_iff_ne.mpr (fun he => hm2 he.symm), Bool.false_and]

/-- Searching a literal word regex in a string is the case-insensitive
substring scan. -/
lemma reSearch_lit : ∀ (w s : List Char),
    reSearch (litRe w) s = isSubstrL (lowerL w) (lowerL s) := by
  intro w s
  induction s with
  | nil => cases w <;> rfl
  | cons c cs ih =>
    show (hasMatchFrom (litRe w) (c :: cs) || reSearch (litRe w) cs) = _
    rw [hmf_lit, ih]
    rfl

/-- C7 counterexample: the configured text is a regex, not a literal: the
pattern "." matches the merchant "A" under the code's test although "."
does not occur literally in "A". -/
theorem c7_counterexample :
    optContainsCI "." (some "A") = true ∧ literalContainsCI "." "A" = false := by
  constructor <;> rfl

/-- C7 amended: description_contains is a case-insensitive regular
expression search against merchant (pandas str.contains defaults to
regex=True); for configured text free of regex metacharacters it is
exactly the case-insensitive literal substring test, and on a row whose
merchant is missing it evaluates to false, never an error. -/
theorem c7_description_contains :
    (∀ (pat s : String), pat.toList.all isPlainChar = true →
        optContainsCI pat (some s) = literalContainsCI pat s) ∧
    (∀ pat : String, optContainsCI pat none = false) := by
  constructor
  · intro pat s h
    show strContainsCI pat s = _
    unfold strContainsCI
    rw [parsePat_plain pat h]
    show reSearch (litRe pat.toList) s.toList = _
    rw [reSearch_lit]
    rfl
  · intro pat
    rfl

/-- C7 witness: a metacharacter-free pattern, evaluated through the
theorem, agrees with the literal test, and a missing merchant is false. -/
theorem c7_witness :
    ("SALARY".toList.all isPlainChar = true) ∧
    (optContainsCI "SALARY" (some "big SALARY DEPOSIT")
        = literalContainsCI "SALARY" "big SALARY DEPOSIT") ∧
    (optContainsCI "SALARY" none = false) :=
  ⟨by decide, c7_description_contains.1 "SALARY" "big SALARY DEPOSIT" (by decide),
   c7_description_contains.2 "SALARY"⟩

end FamilyExpense
